import Mathlib

/-!
Verification development for the AGM PDF-to-Excel extractor
(`extract_document.py`).  Strings are modelled as `List Char`; the
specific regular-expression patterns used by the source are embedded as
executable matchers with Python `re` semantics (leftmost search, greedy
quantifiers with the backtracking that is observable for these concrete
patterns, `re.IGNORECASE` as case-folded comparison of ASCII letters).
-/

/-- Python `\s` (ASCII whitespace set: space, tab, newline, carriage
return, vertical tab, form feed). -/
def isWS (c : Char) : Bool :=
  c = ' ' || c = '\t' || c = '\n' || c = '\r' || c = Char.ofNat 11 || c = Char.ofNat 12

/-- Case-insensitive literal match: `litCI pat s` matches the (lowercase)
literal `pat` at the head of `s` and returns the remaining input. -/
def litCI : List Char → List Char → Option (List Char)
  | [], s => some s
  | _ :: _, [] => none
  | p :: ps, c :: cs => if c.toLower = p then litCI ps cs else none

/-- Greedy `\s+`: requires at least one whitespace character, consumes the
maximal whitespace run, returns the remaining input.  (Backtracking into
the run is unobservable here because every continuation in the source
patterns starts with a non-whitespace literal.) -/
def wsPlus : List Char → Option (List Char)
  | [] => none
  | c :: s => if isWS c then some (s.dropWhile isWS) else none

/-- Greedy `[-\s]*` (used between `Broker`/`Non`/`Votes` in the source's
broker-non-votes patterns). -/
def dropHyphenWS (s : List Char) : List Char :=
  s.dropWhile (fun c => c = '-' || isWS c)

/-- Value expression `([\d,]+)`: greedy nonempty run of digits and commas. -/
def numVal (s : List Char) : Option (List Char) :=
  let run := s.takeWhile (fun c => c.isDigit || c = ',')
  if run = [] then none else some run

/-- The `Nil` alternative (case-insensitive, captured verbatim). -/
def matchNil : List Char → Option (List Char)
  | a :: b :: c :: _ =>
    if a.toLower = 'n' && b.toLower = 'i' && c.toLower = 'l' then some [a, b, c] else none
  | _ => none

/-- Value expression `([\d,]+|Nil|-)` of the broker-non-votes patterns:
ordered alternation, each alternative tried at the current position. -/
def brokerVal (s : List Char) : Option (List Char) :=
  match numVal s with
  | some v => some v
  | none =>
    match matchNil s with
    | some v => some v
    | none =>
      match s with
      | c :: _ => if c = '-' then some ['-'] else none
      | [] => none

/-- Value expression `"([^"]+)"` of the proposal-text pattern: an opening
quote, a greedy nonempty run of non-quote characters, a closing quote. -/
def quotedVal (s : List Char) : Option (List Char) :=
  match s with
  | '"' :: rest =>
    let body := rest.takeWhile (fun c => c ≠ '"')
    if body = [] then none
    else if body.length < rest.length then some body else none
  | _ => none

/-- The common trailer `\s*[:\-]?\s*(VALUE)` of the source's field
patterns.  Greedy whitespace, an optional `:` or `-` separator, greedy
whitespace, then the value expression; when consuming the separator makes
the value fail, the engine backtracks to the empty-separator branch
(observable when the value itself can start with `-`). -/
def valueAfterLabel (val : List Char → Option (List Char)) (s : List Char) :
    Option (List Char) :=
  let s1 := s.dropWhile isWS
  match s1 with
  | c :: rest =>
    if c = ':' || c = '-' then
      match val (rest.dropWhile isWS) with
      | some v => some v
      | none => val s1
    else val s1
  | [] => val []

/-- Pattern `For\s*votes\s*[:\-]?\s*([\d,]+)` anchored at a position. -/
def mForP (s : List Char) : Option (List Char) :=
  (litCI "for".toList s).bind fun s1 =>
  (litCI "votes".toList (s1.dropWhile isWS)).bind fun s2 =>
  valueAfterLabel numVal s2

/-- Pattern `Against\s*votes\s*[:\-]?\s*([\d,]+)` anchored at a position. -/
def mAgainstP (s : List Char) : Option (List Char) :=
  (litCI "against".toList s).bind fun s1 =>
  (litCI "votes".toList (s1.dropWhile isWS)).bind fun s2 =>
  valueAfterLabel numVal s2

/-- Pattern `Abstained\s*votes\s*[:\-]?\s*([\d,]+)` anchored at a position. -/
def mAbstainedP (s : List Char) : Option (List Char) :=
  (litCI "abstained".toList s).bind fun s1 =>
  (litCI "votes".toList (s1.dropWhile isWS)).bind fun s2 =>
  valueAfterLabel numVal s2

/-- Pattern `Withheld\s*votes\s*[:\-]?\s*([\d,]+)` anchored at a position. -/
def mWithheldP (s : List Char) : Option (List Char) :=
  (litCI "withheld".toList s).bind fun s1 =>
  (litCI "votes".toList (s1.dropWhile isWS)).bind fun s2 =>
  valueAfterLabel numVal s2

/-- Pattern `Broker\s*Non[-\s]*Votes\s*[:\-]?\s*([\d,]+|Nil|-)` anchored
at a position. -/
def mBrokerP (s : List Char) : Option (List Char) :=
  (litCI "broker".toList s).bind fun s1 =>
  (litCI "non".toList (s1.dropWhile isWS)).bind fun s2 =>
  (litCI "votes".toList (dropHyphenWS s2)).bind fun s3 =>
  valueAfterLabel brokerVal s3

/-- Pattern `Proposal\s*Text\s*[:\-]?\s*"([^"]+)"` anchored at a position. -/
def mTextP (s : List Char) : Option (List Char) :=
  (litCI "proposal".toList s).bind fun s1 =>
  (litCI "text".toList (s1.dropWhile isWS)).bind fun s2 =>
  valueAfterLabel quotedVal s2

/-- Pattern `Director\s*Votes\s*For\s*[:\-]?\s*([\d,]+)` anchored at a
position. -/
def mForD (s : List Char) : Option (List Char) :=
  (litCI "director".toList s).bind fun s1 =>
  (litCI "votes".toList (s1.dropWhile isWS)).bind fun s2 =>
  (litCI "for".toList (s2.dropWhile isWS)).bind fun s3 =>
  valueAfterLabel numVal s3

/-- Pattern `Director\s*Votes\s*Against\s*[:\-]?\s*([\d,]+)` anchored at a
position. -/
def mAgainstD (s : List Char) : Option (List Char) :=
  (litCI "director".toList s).bind fun s1 =>
  (litCI "votes".toList (s1.dropWhile isWS)).bind fun s2 =>
  (litCI "against".toList (s2.dropWhile isWS)).bind fun s3 =>
  valueAfterLabel numVal s3

/-- Pattern `Director\s*Votes\s*Abstained\s*[:\-]?\s*([\d,]+)` anchored at
a position. -/
def mAbstainedD (s : List Char) : Option (List Char) :=
  (litCI "director".toList s).bind fun s1 =>
  (litCI "votes".toList (s1.dropWhile isWS)).bind fun s2 =>
  (litCI "abstained".toList (s2.dropWhile isWS)).bind fun s3 =>
  valueAfterLabel numVal s3

/-- Pattern `Director\s*Votes\s*Withheld\s*[:\-]?\s*([\d,]+)` anchored at
a position. -/
def mWithheldD (s : List Char) : Option (List Char) :=
  (litCI "director".toList s).bind fun s1 =>
  (litCI "votes".toList (s1.dropWhile isWS)).bind fun s2 =>
  (litCI "withheld".toList (s2.dropWhile isWS)).bind fun s3 =>
  valueAfterLabel numVal s3

/-- Pattern `Director\s*Votes\s*Broker[-\s]*Non[-\s]*Votes\s*[:\-]?\s*([\d,]+|Nil|-)`
anchored at a position. -/
def mBrokerD (s : List Char) : Option (List Char) :=
  (litCI "director".toList s).bind fun s1 =>
  (litCI "votes".toList (s1.dropWhile isWS)).bind fun s2 =>
  (litCI "broker".toList (s2.dropWhile isWS)).bind fun s3 =>
  (litCI "non".toList (dropHyphenWS s3)).bind fun s4 =>
  (litCI "votes".toList (dropHyphenWS s4)).bind fun s5 =>
  valueAfterLabel brokerVal s5

/-- `\d{4}` at the current position: captures exactly the first four
characters when they are all digits. -/
def digits4 : List Char → Option (List Char)
  | a :: b :: c :: d :: _ =>
    if a.isDigit && b.isDigit && c.isDigit && d.isDigit then some [a, b, c, d] else none
  | _ => none

/-- `re.match(r'\s*(\d{4})', block)`: greedy leading `\s*` with
backtracking, then a four-digit capture. -/
def matchYear : List Char → Option (List Char)
  | [] => none
  | c :: s =>
    if isWS c then
      match matchYear s with
      | some v => some v
      | none => digits4 (c :: s)
    else digits4 (c :: s)

/-- `re.match(r'\s*([^\n]+)', block)`: greedy leading `\s*` with
backtracking, then a greedy nonempty run of non-newline characters. -/
def matchName : List Char → Option (List Char)
  | [] => none
  | c :: s =>
    if isWS c then
      match matchName s with
      | some v => some v
      | none => if c = '\n' then none else some ((c :: s).takeWhile (fun x => x ≠ '\n'))
    else if c = '\n' then none else some ((c :: s).takeWhile (fun x => x ≠ '\n'))

/-- `re.search`: try the anchored matcher at every position from left to
right (including the position at end of input). -/
def re_search (m : List Char → Option (List Char)) : List Char → Option (List Char)
  | [] => m []
  | c :: s =>
    match m (c :: s) with
    | some v => some v
    | none => re_search m s

/-- Python `str.strip()` (whitespace on both ends). -/
def pyStrip (s : List Char) : List Char :=
  ((s.dropWhile isWS).reverse.dropWhile isWS).reverse

/-- Digit run to number (`int` on a nonempty all-digit string). -/
def digitsToNat (s : List Char) : Nat :=
  s.foldl (fun n c => 10 * n + (c.toNat - 48)) 0

/-- `int(x.replace(",", "")) if x else 0`, with the `except: 0` policy of
the source: the empty field and a field that is all commas (so that comma
removal leaves nothing parseable) count as zero.  The captured vote fields
are always runs of digits and commas, so after comma removal parse failure
is exactly emptiness; the `all isDigit` guard keeps the function honest on
arbitrary inputs. -/
def pyVotes (s : List Char) : Nat :=
  if s = [] then 0
  else
    let t := s.filter (fun c => c ≠ ',')
    if t = [] then 0
    else if t.all Char.isDigit then digitsToNat t else 0

/-- The leftmost-match primitive behind `re.split`: scan positions left to
right; on the first position where the marker matches, return the text
before the match and the remaining input after it. -/
def findMarker (m : List Char → Option (List Char)) :
    List Char → Option (List Char × List Char)
  | [] => none
  | c :: s =>
    match m (c :: s) with
    | some r => some ([], r)
    | none =>
      match findMarker m s with
      | some (p, r) => some (c :: p, r)
      | none => none

/-- A matcher that, whenever it succeeds, returns a proper suffix of its
input (true of both block markers, which consume at least their literal
text). -/
def Consumes (m : List Char → Option (List Char)) : Prop :=
  ∀ t r, m t = some r → r <:+ t ∧ r.length < t.length

/-- Block marker `Proposal\s+Proxy\s+Year:` of `parse_proposals`
(case-insensitive, whitespace-flexible). -/
def matchPropMarker (s : List Char) : Option (List Char) :=
  (litCI "proposal".toList s).bind fun s1 =>
  (wsPlus s1).bind fun s2 =>
  (litCI "proxy".toList s2).bind fun s3 =>
  (wsPlus s3).bind fun s4 =>
  litCI "year:".toList s4

/-- Block marker `Individual:` of `parse_directors` (case-insensitive). -/
def matchIndivMarker (s : List Char) : Option (List Char) :=
  litCI "individual:".toList s

/-- Fuel-indexed worker for `re.split`: emit the text before the leftmost
match, then continue after the match.  `fuel = s.length` always suffices
for a consuming marker because each match removes at least one character. -/
def splitAuxF (m : List Char → Option (List Char)) : Nat → List Char → List (List Char)
  | 0, s => [s]
  | fuel + 1, s =>
    match findMarker m s with
    | none => [s]
    | some (p, r) => p :: splitAuxF m fuel r

/-- `re.split(marker, text)` (for markers that never match the empty
string): the chunk before the first match, the chunks strictly between
consecutive matches, and the chunk after the last match. -/
def re_split (m : List Char → Option (List Char)) (s : List Char) : List (List Char) :=
  splitAuxF m s.length s

/-- Fuel-indexed worker computing the `(start, end)` index pairs of the
leftmost non-overlapping marker matches. -/
def occsF (m : List Char → Option (List Char)) : Nat → List Char → List (Nat × Nat)
  | 0, _ => []
  | fuel + 1, s =>
    match findMarker m s with
    | none => []
    | some (p, r) =>
      let e := s.length - r.length
      (p.length, e) :: (occsF m fuel r).map (fun q => (q.1 + e, q.2 + e))

/-- The `(start, end)` index pairs of the leftmost non-overlapping
occurrences of the marker in the text. -/
def occurrences (m : List Char → Option (List Char)) (s : List Char) : List (Nat × Nat) :=
  occsF m s.length s

/-- Body of the `for block in proposal_blocks[1:]` loop: build one
proposal record (a key/value list in Python dict insertion order). -/
def mkProposal (block : List Char) : List (String × List Char) :=
  let year := (matchYear block).getD []
  let vFor := (re_search mForP block).getD []
  let vAgainst := (re_search mAgainstP block).getD []
  let vAbstained := (re_search mAbstainedP block).getD []
  let vWithheld := (re_search mWithheldP block).getD []
  let vBroker :=
    match re_search mBrokerP block with
    | some v => if v = "Nil".toList || v = "-".toList then "0".toList else v
    | none => []
  let pText := (re_search mTextP block).getD []
  let outcome :=
    if pyVotes vFor > pyVotes vAgainst then
      "Approved (".toList ++ vFor ++ " For > ".toList ++ vAgainst ++ " Against)".toList
    else []
  [("Proposal Proxy Year", year),
   ("Vote Results - For", vFor),
   ("Vote Results - Against", vAgainst),
   ("Vote Results - Abstained", vAbstained),
   ("Vote Results - Withheld", vWithheld),
   ("Vote Results - Broker Non-Votes", vBroker),
   ("Proposal Text", pText),
   ("Resolution Outcome", outcome),
   ("Mgmt. Proposal Category", []),
   ("Proposal Vote Results Total", [])]

/-- Body of the `for block in director_blocks[1:]` loop: build one
director record (a key/value list in Python dict insertion order). -/
def mkDirector (block : List Char) : List (String × List Char) :=
  let name := match matchName block with
    | some v => pyStrip v
    | none => []
  let vFor := (re_search mForD block).getD []
  let vAgainst := (re_search mAgainstD block).getD []
  let vAbstained := (re_search mAbstainedD block).getD []
  let vWithheld := (re_search mWithheldD block).getD []
  let vBroker :=
    match re_search mBrokerD block with
    | some v => if v = "Nil".toList || v = "-".toList then "0".toList else v
    | none => []
  [("Director Election Year", "2024".toList),
   ("Individual", name),
   ("Director Votes For", vFor),
   ("Director Votes Against", vAgainst),
   ("Director Votes Abstained", vAbstained),
   ("Director Votes Withheld", vWithheld),
   ("Director Votes Broker-Non-Votes", vBroker)]

/-- `parse_proposals`: split on the proposal marker, drop the text before
the first occurrence, build one record per block. -/
def parse_proposals (text : List Char) : List (List (String × List Char)) :=
  ((re_split matchPropMarker text).drop 1).map mkProposal

/-- `parse_directors`: split on the director marker, drop the text before
the first occurrence, build one record per block. -/
def parse_directors (text : List Char) : List (List (String × List Char)) :=
  ((re_split matchIndivMarker text).drop 1).map mkDirector

/-- Column order of the proposal sheet (the `columns=` list of
`save_to_excel`). -/
def proposalColumns : List String :=
  ["Proposal Proxy Year", "Resolution Outcome", "Proposal Text",
   "Mgmt. Proposal Category", "Vote Results - For", "Vote Results - Against",
   "Vote Results - Abstained", "Vote Results - Withheld",
   "Vote Results - Broker Non-Votes", "Proposal Vote Results Total"]

/-- Column order of the director sheet (the `columns=` list of
`save_to_excel`). -/
def directorColumns : List String :=
  ["Director Election Year", "Individual", "Director Votes For",
   "Director Votes Against", "Director Votes Abstained",
   "Director Votes Withheld", "Director Votes Broker-Non-Votes"]

/-- One data row of a sheet: the record's value for each column, in column
order (every record built by this program carries every column). -/
def rowFor (cols : List String) (r : List (String × List Char)) : List (List Char) :=
  cols.map (fun c => (r.lookup c).getD [])

/-- `save_to_excel`: the two named sheets, each a header row followed by
one row per record in sequence order.  The `pandas.DataFrame`/`to_excel`
rendering is external; it is modelled from the spec's exporter contract
(two named sheets, columns in the stated order, header row first, one row
per record). -/
def save_to_excel (proposals directors : List (List (String × List Char))) :
    List (String × List (List (List Char))) :=
  [("Proposal Sheet",
    proposalColumns.map String.toList :: proposals.map (rowFor proposalColumns)),
   ("Non-Proposal Sheet",
    directorColumns.map String.toList :: directors.map (rowFor directorColumns))]

/-- Maximal digit runs of a string, left to right (fuel-indexed worker). -/
def digitRunsAux : Nat → List Char → List (List Char)
  | 0, _ => []
  | _ + 1, [] => []
  | fuel + 1, c :: s =>
    if c.isDigit then
      ((c :: s).takeWhile Char.isDigit) :: digitRunsAux fuel (s.dropWhile Char.isDigit)
    else digitRunsAux fuel s

/-- Maximal digit runs of a string, left to right. -/
def digitRuns (s : List Char) : List (List Char) :=
  digitRunsAux s.length s

/-- Modelled from the spec: the claim's reading of the Proxy Year
derivation, "the first 4-digit run occurring after the block marker" — the
first maximal digit run of length four anywhere in the block, empty when
there is none.  Stated only for comparison with the source's anchored
`matchYear`. -/
def specProxyYear (block : List Char) : List Char :=
  ((digitRuns block).find? (fun r => r.length = 4)).getD []

/-- Modelled from the spec: the claim's reading of the Individual
derivation, "the entire remainder of the first line following the
`Individual:` marker, trimmed" — the block starts at the character after
the marker, so this is the block's text up to its first newline, stripped.
Stated only for comparison with the source's `matchName`. -/
def specFirstLineRemainder (block : List Char) : List Char :=
  pyStrip (block.takeWhile (fun c => c ≠ '\n'))

/-! ## Structural facts about the leftmost-match scan -/

theorem litCI_suffix {p s r : List Char} (h : litCI p s = some r) :
    r <:+ s ∧ s.length = p.length + r.length := by
  induction p generalizing s with
  | nil =>
    simp only [litCI] at h
    cases h
    exact ⟨List.suffix_refl r, by simp⟩
  | cons a ps ih =>
    cases s with
    | nil => simp [litCI] at h
    | cons c cs =>
      simp only [litCI] at h
      split at h
      · obtain ⟨h1, h2⟩ := ih h
        exact ⟨h1.trans (List.suffix_cons c cs), by simp [h2]; omega⟩
      · exact absurd h (by simp)

theorem wsPlus_suffix {s r : List Char} (h : wsPlus s = some r) :
    r <:+ s ∧ r.length < s.length := by
  cases s with
  | nil => simp [wsPlus] at h
  | cons c cs =>
    simp only [wsPlus] at h
    split at h
    · cases h
      constructor
      · exact (List.dropWhile_suffix isWS).trans (List.suffix_cons c cs)
      · have := (List.dropWhile_suffix (l := cs) isWS).length_le
        simp only [List.length_cons]
        omega
    · exact absurd h (by simp)

theorem consumes_matchPropMarker : Consumes matchPropMarker := by
  intro t r h
  simp only [matchPropMarker, Option.bind_eq_bind, Option.bind_eq_some] at h
  obtain ⟨s1, h1, s2, h2, s3, h3, s4, h4, h5⟩ := h
  obtain ⟨h1s, h1l⟩ := litCI_suffix h1
  obtain ⟨h2s, h2l⟩ := wsPlus_suffix h2
  obtain ⟨h3s, h3l⟩ := litCI_suffix h3
  obtain ⟨h4s, h4l⟩ := wsPlus_suffix h4
  obtain ⟨h5s, h5l⟩ := litCI_suffix h5
  refine ⟨h5s.trans (h4s.trans (h3s.trans (h2s.trans h1s))), ?_⟩
  have e1 : ("proposal".toList).length = 8 := rfl
  have e3 : ("proxy".toList).length = 5 := rfl
  have e5 : ("year:".toList).length = 5 := rfl
  omega

theorem consumes_matchIndivMarker : Consumes matchIndivMarker := by
  intro t r h
  obtain ⟨hs, hl⟩ := litCI_suffix h
  refine ⟨hs, ?_⟩
  have e1 : ("individual:".toList).length = 11 := rfl
  omega

theorem findMarker_decomp {m : List Char → Option (List Char)} {s p r : List Char}
    (h : findMarker m s = some (p, r)) : ∃ mid, s = p ++ mid ∧ m mid = some r := by
  induction s generalizing p with
  | nil => simp [findMarker] at h
  | cons c cs ih =>
    simp only [findMarker] at h
    cases hm : m (c :: cs) with
    | some r2 =>
      rw [hm] at h
      cases h
      exact ⟨c :: cs, rfl, hm⟩
    | none =>
      rw [hm] at h
      cases hf : findMarker m cs with
      | some pr =>
        obtain ⟨p2, r2⟩ := pr
        rw [hf] at h
        cases h
        obtain ⟨mid, hmid, hmmid⟩ := ih hf
        exact ⟨mid, by simp [hmid], hmmid⟩
      | none => rw [hf] at h; cases h

theorem findMarker_leftmost {m : List Char → Option (List Char)} {s p r : List Char}
    (h : findMarker m s = some (p, r)) : ∀ j, j < p.length → m (s.drop j) = none := by
  induction s generalizing p with
  | nil => simp [findMarker] at h
  | cons c cs ih =>
    simp only [findMarker] at h
    cases hm : m (c :: cs) with
    | some r2 =>
      rw [hm] at h
      cases h
      intro j hj
      simp at hj
    | none =>
      rw [hm] at h
      cases hf : findMarker m cs with
      | some pr =>
        obtain ⟨p2, r2⟩ := pr
        rw [hf] at h
        cases h
        intro j hj
        cases j with
        | zero => simpa using hm
        | succ j2 =>
          simp only [List.length_cons, Nat.succ_lt_succ_iff] at hj
          simpa using ih hf j2 hj
      | none => rw [hf] at h; cases h

theorem findMarker_of_none {m : List Char → Option (List Char)} {s : List Char}
    (h : ∀ i, i < s.length → m (s.drop i) = none) : findMarker m s = none := by
  induction s with
  | nil => rfl
  | cons c cs ih =>
    simp only [findMarker]
    have h0 : m (c :: cs) = none := by simpa using h 0 (by simp)
    rw [h0]
    have : findMarker m cs = none := by
      apply ih
      intro i hi
      simpa using h (i + 1) (by simpa using hi)
    rw [this]

theorem Consumes.nil_none {m : List Char → Option (List Char)} (hm : Consumes m) :
    m [] = none := by
  cases h : m [] with
  | none => rfl
  | some r =>
    have := (hm [] r h).2
    simp at this

theorem findMarker_shrink {m : List Char → Option (List Char)} (hm : Consumes m)
    {s p r : List Char} (h : findMarker m s = some (p, r)) :
    r <:+ s ∧ r.length < s.length ∧ s.length = p.length + (s.length - p.length) ∧
      r.length < s.length - p.length := by
  obtain ⟨mid, hmid, hmmid⟩ := findMarker_decomp h
  obtain ⟨hsuf, hlen⟩ := hm mid r hmmid
  subst hmid
  refine ⟨hsuf.trans (List.suffix_append p mid), ?_, ?_, ?_⟩ <;>
    simp only [List.length_append] <;> omega

theorem suffix_drop_eq {s r : List Char} (h : r <:+ s) :
    s.drop (s.length - r.length) = r := by
  obtain ⟨t, rfl⟩ := h
  have hl : (t ++ r).length - r.length = t.length := by simp
  rw [hl, List.drop_left]

theorem splitAuxF_head (m : List Char → Option (List Char)) (fuel : Nat) (s : List Char) :
    (splitAuxF m fuel s)[0]? =
      some (s.take (match (occsF m fuel s)[0]? with
        | some q => q.1
        | none => s.length)) := by
  cases fuel with
  | zero => simp [splitAuxF, occsF]
  | succ fuel =>
    simp only [splitAuxF, occsF]
    cases hf : findMarker m s with
    | none => simp
    | some pr =>
      obtain ⟨p, r⟩ := pr
      obtain ⟨mid, hmid, _⟩ := findMarker_decomp hf
      simp only [List.getElem?_cons_zero]
      subst hmid
      rw [List.take_left]

theorem splitAuxF_length {m : List Char → Option (List Char)} (hm : Consumes m) :
    ∀ fuel s, s.length ≤ fuel →
      (splitAuxF m fuel s).length = (occsF m fuel s).length + 1 := by
  intro fuel
  induction fuel with
  | zero => intro s hs; simp [splitAuxF, occsF]
  | succ fuel ih =>
    intro s hs
    simp only [splitAuxF, occsF]
    cases hf : findMarker m s with
    | none => simp
    | some pr =>
      obtain ⟨p, r⟩ := pr
      have hr := (findMarker_shrink hm hf).2.1
      simp only [List.length_cons, List.length_map]
      rw [ih r (by omega)]

theorem occsF_valid {m : List Char → Option (List Char)} (hm : Consumes m) :
    ∀ fuel s, s.length ≤ fuel → ∀ q ∈ occsF m fuel s,
      m (s.drop q.1) = some (s.drop q.2) ∧ q.1 < q.2 ∧ q.2 ≤ s.length := by
  intro fuel
  induction fuel with
  | zero => intro s hs q hq; simp [occsF] at hq
  | succ fuel ih =>
    intro s hs q hq
    simp only [occsF] at hq
    cases hf : findMarker m s with
    | none => rw [hf] at hq; simp at hq
    | some pr =>
      obtain ⟨p, r⟩ := pr
      rw [hf] at hq
      obtain ⟨hsuf, hrs, hpl, hrp⟩ := findMarker_shrink hm hf
      have hsd : s.drop (s.length - r.length) = r := suffix_drop_eq hsuf
      have hfuel : r.length ≤ fuel := by omega
      obtain ⟨mid, hmid, hmm⟩ := findMarker_decomp hf
      simp only [List.mem_cons, List.mem_map] at hq
      rcases hq with hq | ⟨q0, hq0, hq⟩
      · subst hq
        refine ⟨?_, by show p.length < s.length - r.length; omega,
          by show s.length - r.length ≤ s.length; omega⟩
        have hdp : s.drop p.length = mid := by rw [hmid, List.drop_left]
        show m (s.drop p.length) = some (s.drop (s.length - r.length))
        rw [hdp, hsd, hmm]
      · subst hq
        obtain ⟨hq1, hq2, hq3⟩ := ih r hfuel q0 hq0
        have h1 : r.drop q0.1 = s.drop (q0.1 + (s.length - r.length)) := by
          conv_rhs => rw [Nat.add_comm, ← List.drop_drop, hsd]
        have h2 : r.drop q0.2 = s.drop (q0.2 + (s.length - r.length)) := by
          conv_rhs => rw [Nat.add_comm, ← List.drop_drop, hsd]
        refine ⟨?_, by show q0.1 + (s.length - r.length) < q0.2 + (s.length - r.length); omega,
          by show q0.2 + (s.length - r.length) ≤ s.length; omega⟩
        show m (s.drop (q0.1 + (s.length - r.length))) =
          some (s.drop (q0.2 + (s.length - r.length)))
        rw [← h1, ← h2, hq1]

theorem splitAuxF_seg {m : List Char → Option (List Char)} (hm : Consumes m) :
    ∀ fuel s, s.length ≤ fuel → ∀ i q, (occsF m fuel s)[i]? = some q →
      ((splitAuxF m fuel s).drop 1)[i]? =
        some ((s.drop q.2).take
          ((match (occsF m fuel s)[i + 1]? with
            | some q2 => q2.1
            | none => s.length) - q.2)) := by
  intro fuel
  induction fuel with
  | zero => intro s hs i q hq; simp [occsF] at hq
  | succ fuel ih =>
    intro s hs i q hq
    simp only [occsF, splitAuxF] at hq ⊢
    cases hf : findMarker m s with
    | none => rw [hf] at hq; simp at hq
    | some pr =>
      obtain ⟨p, r⟩ := pr
      rw [hf] at hq
      obtain ⟨hsuf, hrs, hpl, hrp⟩ := findMarker_shrink hm hf
      have hsd : s.drop (s.length - r.length) = r := suffix_drop_eq hsuf
      have hfuel : r.length ≤ fuel := by omega
      cases i with
      | zero =>
        simp only [List.getElem?_cons_zero, Option.some.injEq] at hq
        subst hq
        simp only [List.drop_succ_cons, List.drop_zero, List.getElem?_cons_succ,
          List.getElem?_map]
        rw [splitAuxF_head m fuel r]
        cases ho : (occsF m fuel r)[0]? with
        | none =>
          simp only [ho, Option.map_none']
          rw [hsd]
          have he : s.length - (s.length - r.length) = r.length := by omega
          rw [he, List.take_length]
        | some q2 =>
          simp only [ho, Option.map_some']
          rw [hsd]
          have he : q2.1 + (s.length - r.length) - (s.length - r.length) = q2.1 := by omega
          rw [he]
      | succ j =>
        simp only [List.getElem?_cons_succ, List.getElem?_map] at hq
        cases ho : (occsF m fuel r)[j]? with
        | none => rw [ho] at hq; simp at hq
        | some q0 =>
          rw [ho] at hq
          simp only [Option.map_some', Option.some.injEq] at hq
          subst hq
          have hb : q0.2 ≤ r.length := ((occsF_valid hm fuel r hfuel) q0
            (List.getElem?_mem ho)).2.2
          have hseg := ih r hfuel j q0 ho
          simp only [List.drop_succ_cons, List.drop_zero, List.getElem?_cons_succ,
            List.getElem?_map]
          rw [List.getElem?_drop] at hseg
          have hidx : 1 + j = j + 1 := by omega
          rw [hidx] at hseg
          rw [hseg]
          cases ho2 : (occsF m fuel r)[j + 1]? with
          | none =>
            simp only [ho2, Option.map_none']
            have h1 : r.drop q0.2 = s.drop (q0.2 + (s.length - r.length)) := by
              conv_rhs => rw [Nat.add_comm, ← List.drop_drop, hsd]
            have h2 : r.length - q0.2 = s.length - (q0.2 + (s.length - r.length)) := by
              omega
            rw [h1, h2]
          | some q2 =>
            simp only [ho2, Option.map_some']
            have h1 : r.drop q0.2 = s.drop (q0.2 + (s.length - r.length)) := by
              conv_rhs => rw [Nat.add_comm, ← List.drop_drop, hsd]
            have h2 : q2.1 - q0.2 =
                q2.1 + (s.length - r.length) - (q0.2 + (s.length - r.length)) := by
              omega
            rw [h1, h2]

theorem occsF_head_inv {m : List Char → Option (List Char)} {fuel : Nat}
    {s : List Char} {q : Nat × Nat} (h : (occsF m fuel s)[0]? = some q) :
    ∃ p r, findMarker m s = some (p, r) ∧ q.1 = p.length := by
  cases fuel with
  | zero => simp [occsF] at h
  | succ fuel =>
    simp only [occsF] at h
    cases hf : findMarker m s with
    | none => rw [hf] at h; simp at h
    | some pr =>
      obtain ⟨p, r⟩ := pr
      rw [hf] at h
      simp only [List.getElem?_cons_zero, Option.some.injEq] at h
      exact ⟨p, r, rfl, by rw [← h]⟩

theorem splitAuxF_noMatch {m : List Char → Option (List Char)} {s : List Char}
    (h : ∀ i, i < s.length → m (s.drop i) = none) (fuel : Nat) :
    splitAuxF m fuel s = [s] := by
  have hf := findMarker_of_none h
  cases fuel with
  | zero => rfl
  | succ fuel => simp [splitAuxF, hf]

/-- Generic segmentation contract of `re.split`-based block extraction, for
a marker that always consumes input: the blocks after the discarded head
are in bijection with the marker occurrences; block `i` is exactly the
text strictly between the end of occurrence `i` and the start of
occurrence `i + 1` (or the end of the text); every recorded occurrence is
a real marker match and the first one is leftmost; and a text with no
marker occurrence produces no blocks. -/
theorem split_segmentation (m : List Char → Option (List Char)) (hm : Consumes m)
    (s : List Char) :
    ((re_split m s).drop 1).length = (occurrences m s).length
  ∧ (∀ i q, (occurrences m s)[i]? = some q →
      ((re_split m s).drop 1)[i]? =
        some ((s.drop q.2).take
          ((match (occurrences m s)[i + 1]? with
            | some q2 => q2.1
            | none => s.length) - q.2)))
  ∧ (∀ q ∈ occurrences m s, m (s.drop q.1) = some (s.drop q.2) ∧ q.1 < q.2 ∧ q.2 ≤ s.length)
  ∧ (∀ q, (occurrences m s)[0]? = some q → ∀ j, j < q.1 → m (s.drop j) = none)
  ∧ ((∀ i, i ≤ s.length → m (s.drop i) = none) → re_split m s = [s])
  := by
  refine ⟨?_, ?_, ?_, ?_, ?_⟩
  · have := splitAuxF_length hm s.length s (Nat.le_refl _)
    simp only [re_split, occurrences, List.length_drop, this]
    omega
  · intro i q hq
    exact splitAuxF_seg hm s.length s (Nat.le_refl _) i q hq
  · intro q hq
    exact occsF_valid hm s.length s (Nat.le_refl _) q hq
  · intro q hq j hj
    obtain ⟨p, r, hf, hqp⟩ := occsF_head_inv hq
    exact findMarker_leftmost hf j (by omega)
  · intro h
    exact splitAuxF_noMatch (fun i hi => h i (by omega)) s.length

/-- C1: Block segmentation.  For every input text and each pipeline's
marker (the case-insensitive, whitespace-flexible `Proposal Proxy Year:`
for proposals, `Individual:` for directors), the pipeline produces one
record per marker occurrence; the block for occurrence `i` is the text
strictly between occurrence `i` and occurrence `i + 1` (or the end of the
text for the last occurrence); text preceding the first occurrence yields
no record; and if the marker occurs zero times the pipeline returns the
empty sequence. -/
theorem block_segmentation_spec (text : List Char) :
    (parse_proposals text = ((re_split matchPropMarker text).drop 1).map mkProposal
      ∧ (parse_proposals text).length = (occurrences matchPropMarker text).length
      ∧ (∀ i q, (occurrences matchPropMarker text)[i]? = some q →
          ((re_split matchPropMarker text).drop 1)[i]? =
            some ((text.drop q.2).take
              ((match (occurrences matchPropMarker text)[i + 1]? with
                | some q2 => q2.1
                | none => text.length) - q.2)))
      ∧ (∀ q ∈ occurrences matchPropMarker text,
          matchPropMarker (text.drop q.1) = some (text.drop q.2)
            ∧ q.1 < q.2 ∧ q.2 ≤ text.length)
      ∧ (∀ q, (occurrences matchPropMarker text)[0]? = some q →
          ∀ j, j < q.1 → matchPropMarker (text.drop j) = none)
      ∧ ((∀ i, i ≤ text.length → matchPropMarker (text.drop i) = none) →
          parse_proposals text = []))
  ∧ (parse_directors text = ((re_split matchIndivMarker text).drop 1).map mkDirector
      ∧ (parse_directors text).length = (occurrences matchIndivMarker text).length
      ∧ (∀ i q, (occurrences matchIndivMarker text)[i]? = some q →
          ((re_split matchIndivMarker text).drop 1)[i]? =
            some ((text.drop q.2).take
              ((match (occurrences matchIndivMarker text)[i + 1]? with
                | some q2 => q2.1
                | none => text.length) - q.2)))
      ∧ (∀ q ∈ occurrences matchIndivMarker text,
          matchIndivMarker (text.drop q.1) = some (text.drop q.2)
            ∧ q.1 < q.2 ∧ q.2 ≤ text.length)
      ∧ (∀ q, (occurrences matchIndivMarker text)[0]? = some q →
          ∀ j, j < q.1 → matchIndivMarker (text.drop j) = none)
      ∧ ((∀ i, i ≤ text.length → matchIndivMarker (text.drop i) = none) →
          parse_directors text = [])) := by
  obtain ⟨hP1, hP2, hP3, hP4, hP5⟩ :=
    split_segmentation matchPropMarker consumes_matchPropMarker text
  obtain ⟨hD1, hD2, hD3, hD4, hD5⟩ :=
    split_segmentation matchIndivMarker consumes_matchIndivMarker text
  refine ⟨⟨rfl, ?_, hP2, hP3, hP4, ?_⟩, ⟨rfl, ?_, hD2, hD3, hD4, ?_⟩⟩
  · simp only [parse_proposals, List.length_map, hP1]
  · intro h
    simp only [parse_proposals, hP5 h, List.drop_succ_cons, List.drop_nil, List.map_nil]
  · simp only [parse_directors, List.length_map, hD1]
  · intro h
    simp only [parse_directors, hD5 h, List.drop_succ_cons, List.drop_nil, List.map_nil]

theorem block_segmentation_spec_witness :
    parse_proposals ("Individual: no proposal marker here".toList) = []
  ∧ ((re_split matchIndivMarker ("Individual: A Individual: B".toList)).drop 1)[0]? =
      some (" A ".toList) := by
  constructor
  · exact (block_segmentation_spec ("Individual: no proposal marker here".toList)).1.2.2.2.2.2
      (by decide)
  · have h := (block_segmentation_spec ("Individual: A Individual: B".toList)).2.2.2.1 0 (0, 11)
      (by decide)
    exact h.trans (by decide)

/-- C5: Scenario A end-to-end.  On the input text
`Proposal Proxy Year: 2023 blah For votes: 1,000 Against votes: 200
Proposal Text: "Elect auditor"`, `parse_proposals` returns exactly one
record with Proposal Proxy Year `2023`, Vote Results - For `1,000`,
Vote Results - Against `200`, Resolution Outcome
`Approved (1,000 For > 200 Against)` and Proposal Text `Elect auditor`
(and the remaining five fields empty). -/
theorem scenario_A :
    parse_proposals
        ("Proposal Proxy Year: 2023 blah For votes: 1,000 Against votes: 200 Proposal Text: \"Elect auditor\"".toList) =
      [[("Proposal Proxy Year", "2023".toList),
        ("Vote Results - For", "1,000".toList),
        ("Vote Results - Against", "200".toList),
        ("Vote Results - Abstained", []),
        ("Vote Results - Withheld", []),
        ("Vote Results - Broker Non-Votes", []),
        ("Proposal Text", "Elect auditor".toList),
        ("Resolution Outcome", "Approved (1,000 For > 200 Against)".toList),
        ("Mgmt. Proposal Category", []),
        ("Proposal Vote Results Total", [])]] := by
  decide

theorem re_search_out {m : List Char → Option (List Char)} {P : List Char → Prop}
    (hP : ∀ t v, m t = some v → P v) :
    ∀ {s v : List Char}, re_search m s = some v → P v := by
  intro s
  induction s with
  | nil => intro v h; exact hP [] v h
  | cons c cs ih =>
    intro v h
    simp only [re_search] at h
    cases hm : m (c :: cs) with
    | some v2 => rw [hm] at h; cases h; exact hP _ _ hm
    | none => rw [hm] at h; exact ih h

theorem valueAfterLabel_out {val : List Char → Option (List Char)} {s v : List Char}
    (h : valueAfterLabel val s = some v) : ∃ t, val t = some v := by
  simp only [valueAfterLabel] at h
  split at h
  · split at h
    · split at h
      · rename_i v2 heq
        cases h
        exact ⟨_, heq⟩
      · exact ⟨_, h⟩
    · exact ⟨_, h⟩
  · exact ⟨_, h⟩

theorem brokerVal_shape {s v : List Char} (h : brokerVal s = some v) :
    (v ≠ [] ∧ v.all (fun c => c.isDigit || c = ','))
      ∨ v.map Char.toLower = "nil".toList ∨ v = "-".toList := by
  simp only [brokerVal] at h
  cases hn : numVal s with
  | some v2 =>
    simp only [hn] at h
    cases h
    simp only [numVal] at hn
    split at hn
    · exact absurd hn (by simp)
    · rename_i hne
      cases hn
      refine Or.inl ⟨hne, ?_⟩
      simp only [List.all_eq_true]
      intro c hc
      have := List.mem_takeWhile_imp hc
      simpa using this
  | none =>
    simp only [hn] at h
    cases hm : matchNil s with
    | some v2 =>
      simp only [hm] at h
      cases h
      refine Or.inr (Or.inl ?_)
      unfold matchNil at hm
      split at hm
      · split at hm
        · cases hm
          rename_i hl
          simp only [Bool.and_eq_true, decide_eq_true_eq] at hl
          show _ = ['n', 'i', 'l']
          simp [hl.1.1, hl.1.2, hl.2]
        · cases hm
      · cases hm
    | none =>
      simp only [hm] at h
      cases s with
      | nil => simp at h
      | cons c cs =>
        have h3 : (if c = '-' then some ['-'] else none) = some v := h
        by_cases hc : c = '-'
        · rw [if_pos hc] at h3
          exact Or.inr (Or.inr (Option.some.inj h3).symm)
        · rw [if_neg hc] at h3
          exact absurd h3 (by simp)

theorem mBrokerP_out {s v : List Char} (h : mBrokerP s = some v) :
    ∃ t, brokerVal t = some v := by
  simp only [mBrokerP, Option.bind_eq_bind, Option.bind_eq_some] at h
  obtain ⟨s1, _, s2, _, s3, _, h4⟩ := h
  exact valueAfterLabel_out h4

theorem mBrokerD_out {s v : List Char} (h : mBrokerD s = some v) :
    ∃ t, brokerVal t = some v := by
  simp only [mBrokerD, Option.bind_eq_bind, Option.bind_eq_some] at h
  obtain ⟨s1, _, s2, _, s3, _, s4, _, s5, _, h6⟩ := h
  exact valueAfterLabel_out h6

theorem lookup_mkProposal_broker (b : List Char) :
    (mkProposal b).lookup "Vote Results - Broker Non-Votes" =
      some (match re_search mBrokerP b with
        | some v => if v = "Nil".toList || v = "-".toList then "0".toList else v
        | none => []) := rfl

theorem lookup_mkDirector_broker (b : List Char) :
    (mkDirector b).lookup "Director Votes Broker-Non-Votes" =
      some (match re_search mBrokerD b with
        | some v => if v = "Nil".toList || v = "-".toList then "0".toList else v
        | none => []) := rfl

/-- C2: Sentinel normalization of the Broker Non-Votes field (both
pipelines).  For every block in which the broker-non-votes pattern
matches, a captured value exactly equal to the case-sensitive string
`Nil` or to `-` is emitted as `0`; any other captured value (a run of
digits and commas, or a case variant of `nil` admitted by the
case-insensitive pattern) is emitted verbatim; and when the pattern does
not match at all the field is the empty string, distinct from `0`. -/
theorem broker_sentinel_normalization (b : List Char) :
    (∀ v, re_search mBrokerP b = some v →
        ((v = "Nil".toList ∨ v = "-".toList) →
          (mkProposal b).lookup "Vote Results - Broker Non-Votes" = some ("0".toList))
      ∧ (v ≠ "Nil".toList → v ≠ "-".toList →
          (mkProposal b).lookup "Vote Results - Broker Non-Votes" = some v)
      ∧ ((v ≠ [] ∧ v.all (fun c => c.isDigit || c = ','))
          ∨ v.map Char.toLower = "nil".toList ∨ v = "-".toList))
  ∧ (re_search mBrokerP b = none →
      (mkProposal b).lookup "Vote Results - Broker Non-Votes" = some [])
  ∧ (∀ v, re_search mBrokerD b = some v →
        ((v = "Nil".toList ∨ v = "-".toList) →
          (mkDirector b).lookup "Director Votes Broker-Non-Votes" = some ("0".toList))
      ∧ (v ≠ "Nil".toList → v ≠ "-".toList →
          (mkDirector b).lookup "Director Votes Broker-Non-Votes" = some v)
      ∧ ((v ≠ [] ∧ v.all (fun c => c.isDigit || c = ','))
          ∨ v.map Char.toLower = "nil".toList ∨ v = "-".toList))
  ∧ (re_search mBrokerD b = none →
      (mkDirector b).lookup "Director Votes Broker-Non-Votes" = some [])
  ∧ ([] : List Char) ≠ "0".toList := by
  refine ⟨?_, ?_, ?_, ?_, by decide⟩
  · intro v h
    refine ⟨?_, ?_, ?_⟩
    · intro hv
      simp only [lookup_mkProposal_broker, h, Option.some.injEq]
      rcases hv with hv | hv <;> simp [hv]
    · intro hv1 hv2
      simp only [lookup_mkProposal_broker, h, Option.some.injEq]
      rw [if_neg (by simp; exact ⟨hv1, hv2⟩)]
    · exact re_search_out
        (fun t v2 ht => brokerVal_shape (mBrokerP_out ht).choose_spec) h
  · intro h
    simp only [lookup_mkProposal_broker, h]
  · intro v h
    refine ⟨?_, ?_, ?_⟩
    · intro hv
      simp only [lookup_mkDirector_broker, h, Option.some.injEq]
      rcases hv with hv | hv <;> simp [hv]
    · intro hv1 hv2
      simp only [lookup_mkDirector_broker, h, Option.some.injEq]
      rw [if_neg (by simp; exact ⟨hv1, hv2⟩)]
    · exact re_search_out
        (fun t v2 ht => brokerVal_shape (mBrokerD_out ht).choose_spec) h
  · intro h
    simp only [lookup_mkDirector_broker, h]

theorem broker_sentinel_normalization_witness :
    (mkProposal ("Broker Non-Votes: Nil".toList)).lookup
        "Vote Results - Broker Non-Votes" = some ("0".toList)
  ∧ (mkDirector ("Director Votes Broker-Non-Votes: 1,234".toList)).lookup
        "Director Votes Broker-Non-Votes" = some ("1,234".toList)
  ∧ (mkProposal ("Broker Non-Votes: nil".toList)).lookup
        "Vote Results - Broker Non-Votes" = some ("nil".toList) := by
  refine ⟨?_, ?_, ?_⟩
  · exact ((broker_sentinel_normalization ("Broker Non-Votes: Nil".toList)).1
      ("Nil".toList) (by decide)).1 (Or.inl rfl)
  · exact ((broker_sentinel_normalization
      ("Director Votes Broker-Non-Votes: 1,234".toList)).2.2.1
      ("1,234".toList) (by decide)).2.1 (by decide) (by decide)
  · exact ((broker_sentinel_normalization ("Broker Non-Votes: nil".toList)).1
      ("nil".toList) (by decide)).2.1 (by decide) (by decide)

theorem lookup_mkProposal_for (b : List Char) :
    (mkProposal b).lookup "Vote Results - For" = some ((re_search mForP b).getD []) := rfl

theorem lookup_mkProposal_against (b : List Char) :
    (mkProposal b).lookup "Vote Results - Against" =
      some ((re_search mAgainstP b).getD []) := rfl

theorem lookup_mkProposal_outcome (b : List Char) :
    (mkProposal b).lookup "Resolution Outcome" =
      some (if pyVotes ((re_search mForP b).getD []) >
              pyVotes ((re_search mAgainstP b).getD [])
        then "Approved (".toList ++ (re_search mForP b).getD [] ++ " For > ".toList
              ++ (re_search mAgainstP b).getD [] ++ " Against)".toList
        else []) := rfl

/-- C3: Outcome calculation.  For every proposal record, with the captured
For and Against strings stripped of commas and parsed as integers (empty
string or parse failure counting as zero, the semantics of `pyVotes`), if
For > Against the Resolution Outcome is exactly
`Approved (<rawFor> For > <rawAgainst> Against)` built from the original
comma-preserving captured strings, and otherwise (including For = Against,
and For `0` with Against absent) it is the empty string. -/
theorem outcome_calculation (text : List Char) (r : List (String × List Char))
    (hr : r ∈ parse_proposals text) :
    ∃ f a, r.lookup "Vote Results - For" = some f
      ∧ r.lookup "Vote Results - Against" = some a
      ∧ r.lookup "Resolution Outcome" =
          some (if pyVotes f > pyVotes a
            then "Approved (".toList ++ f ++ " For > ".toList ++ a ++ " Against)".toList
            else []) := by
  simp only [parse_proposals, List.mem_map] at hr
  obtain ⟨b, hb, rfl⟩ := hr
  exact ⟨_, _, lookup_mkProposal_for b, lookup_mkProposal_against b,
    lookup_mkProposal_outcome b⟩

theorem outcome_calculation_witness :
    ∃ f a, (mkProposal (" 2020 For votes: 10 Against votes: 10".toList)).lookup
          "Vote Results - For" = some f
      ∧ (mkProposal (" 2020 For votes: 10 Against votes: 10".toList)).lookup
          "Vote Results - Against" = some a
      ∧ (mkProposal (" 2020 For votes: 10 Against votes: 10".toList)).lookup
          "Resolution Outcome" =
          some (if pyVotes f > pyVotes a
            then "Approved (".toList ++ f ++ " For > ".toList ++ a ++ " Against)".toList
            else []) :=
  outcome_calculation
    ("Proposal Proxy Year: 2020 For votes: 10 Against votes: 10".toList)
    (mkProposal (" 2020 For votes: 10 Against votes: 10".toList)) (by decide)

/-- C10: Implicit edge case of the Approved message.  When the For pattern
captures a string parsing to a positive integer and the Against pattern
does not match, the Resolution Outcome interpolates the empty Against
string: `Approved (<rawFor> For >  Against)` with an empty against slot. -/
theorem approved_empty_against_slot (b f : List Char)
    (hf : re_search mForP b = some f) (ha : re_search mAgainstP b = none)
    (hpos : 0 < pyVotes f) :
    (mkProposal b).lookup "Resolution Outcome" =
      some ("Approved (".toList ++ f ++ " For >  Against)".toList) := by
  have hz : pyVotes ([] : List Char) = 0 := rfl
  simp only [lookup_mkProposal_outcome, hf, ha, Option.getD_some, Option.getD_none]
  rw [if_pos (by omega)]
  simp only [List.append_nil, List.append_assoc, Option.some.injEq]
  rw [show (" For > ".toList ++ " Against)".toList) = " For >  Against)".toList by decide]

theorem approved_empty_against_slot_witness :
    (mkProposal ("For votes: 5".toList)).lookup "Resolution Outcome" =
      some ("Approved (5 For >  Against)".toList) := by
  have h := approved_empty_against_slot ("For votes: 5".toList) ("5".toList)
    (by decide) (by decide) (by decide)
  exact h.trans (by decide)

theorem lookup_mkProposal_year (b : List Char) :
    (mkProposal b).lookup "Proposal Proxy Year" = some ((matchYear b).getD []) := rfl

theorem lookup_mkProposal_abstained (b : List Char) :
    (mkProposal b).lookup "Vote Results - Abstained" =
      some ((re_search mAbstainedP b).getD []) := rfl

theorem lookup_mkProposal_withheld (b : List Char) :
    (mkProposal b).lookup "Vote Results - Withheld" =
      some ((re_search mWithheldP b).getD []) := rfl

theorem lookup_mkProposal_text (b : List Char) :
    (mkProposal b).lookup "Proposal Text" = some ((re_search mTextP b).getD []) := rfl

theorem lookup_mkProposal_mgmt (b : List Char) :
    (mkProposal b).lookup "Mgmt. Proposal Category" = some [] := rfl

theorem lookup_mkProposal_total (b : List Char) :
    (mkProposal b).lookup "Proposal Vote Results Total" = some [] := rfl

theorem lookup_mkDirector_year (b : List Char) :
    (mkDirector b).lookup "Director Election Year" = some ("2024".toList) := rfl

theorem lookup_mkDirector_individual (b : List Char) :
    (mkDirector b).lookup "Individual" =
      some (match matchName b with
        | some v => pyStrip v
        | none => []) := rfl

theorem lookup_mkDirector_for (b : List Char) :
    (mkDirector b).lookup "Director Votes For" = some ((re_search mForD b).getD []) := rfl

theorem lookup_mkDirector_against (b : List Char) :
    (mkDirector b).lookup "Director Votes Against" =
      some ((re_search mAgainstD b).getD []) := rfl

theorem lookup_mkDirector_abstained (b : List Char) :
    (mkDirector b).lookup "Director Votes Abstained" =
      some ((re_search mAbstainedD b).getD []) := rfl

theorem lookup_mkDirector_withheld (b : List Char) :
    (mkDirector b).lookup "Director Votes Withheld" =
      some ((re_search mWithheldD b).getD []) := rfl

/-- C4: Record-shape and ordering invariant.  Every proposal record has
exactly the 10 fixed proposal fields and every director record exactly the
7 fixed director fields, in dict insertion order; every unmatched field is
the empty string (no missing keys); records appear in output order
matching block order with no block skipped; and a block on which every
field extraction fails still yields a record (all extracted fields empty;
the director record keeps its constant `2024` election year). -/
theorem record_shape_invariant (text : List Char) :
    (parse_proposals text = ((re_split matchPropMarker text).drop 1).map mkProposal)
  ∧ (∀ r ∈ parse_proposals text, r.map Prod.fst =
      ["Proposal Proxy Year", "Vote Results - For", "Vote Results - Against",
       "Vote Results - Abstained", "Vote Results - Withheld",
       "Vote Results - Broker Non-Votes", "Proposal Text", "Resolution Outcome",
       "Mgmt. Proposal Category", "Proposal Vote Results Total"])
  ∧ (parse_directors text = ((re_split matchIndivMarker text).drop 1).map mkDirector)
  ∧ (∀ r ∈ parse_directors text, r.map Prod.fst =
      ["Director Election Year", "Individual", "Director Votes For",
       "Director Votes Against", "Director Votes Abstained",
       "Director Votes Withheld", "Director Votes Broker-Non-Votes"])
  ∧ (∀ b, (matchYear b = none →
        (mkProposal b).lookup "Proposal Proxy Year" = some [])
      ∧ (re_search mForP b = none →
        (mkProposal b).lookup "Vote Results - For" = some [])
      ∧ (re_search mAgainstP b = none →
        (mkProposal b).lookup "Vote Results - Against" = some [])
      ∧ (re_search mAbstainedP b = none →
        (mkProposal b).lookup "Vote Results - Abstained" = some [])
      ∧ (re_search mWithheldP b = none →
        (mkProposal b).lookup "Vote Results - Withheld" = some [])
      ∧ (re_search mBrokerP b = none →
        (mkProposal b).lookup "Vote Results - Broker Non-Votes" = some [])
      ∧ (re_search mTextP b = none →
        (mkProposal b).lookup "Proposal Text" = some [])
      ∧ (mkProposal b).lookup "Mgmt. Proposal Category" = some []
      ∧ (mkProposal b).lookup "Proposal Vote Results Total" = some [])
  ∧ (∀ b, (matchName b = none →
        (mkDirector b).lookup "Individual" = some [])
      ∧ (re_search mForD b = none →
        (mkDirector b).lookup "Director Votes For" = some [])
      ∧ (re_search mAgainstD b = none →
        (mkDirector b).lookup "Director Votes Against" = some [])
      ∧ (re_search mAbstainedD b = none →
        (mkDirector b).lookup "Director Votes Abstained" = some [])
      ∧ (re_search mWithheldD b = none →
        (mkDirector b).lookup "Director Votes Withheld" = some [])
      ∧ (re_search mBrokerD b = none →
        (mkDirector b).lookup "Director Votes Broker-Non-Votes" = some [])
      ∧ (mkDirector b).lookup "Director Election Year" = some ("2024".toList))
  ∧ (∀ b, matchYear b = none → re_search mForP b = none → re_search mAgainstP b = none →
      re_search mAbstainedP b = none → re_search mWithheldP b = none →
      re_search mBrokerP b = none → re_search mTextP b = none →
      mkProposal b =
        [("Proposal Proxy Year", []), ("Vote Results - For", []),
         ("Vote Results - Against", []), ("Vote Results - Abstained", []),
         ("Vote Results - Withheld", []), ("Vote Results - Broker Non-Votes", []),
         ("Proposal Text", []), ("Resolution Outcome", []),
         ("Mgmt. Proposal Category", []), ("Proposal Vote Results Total", [])])
  ∧ (∀ b, matchName b = none → re_search mForD b = none → re_search mAgainstD b = none →
      re_search mAbstainedD b = none → re_search mWithheldD b = none →
      re_search mBrokerD b = none →
      mkDirector b =
        [("Director Election Year", "2024".toList), ("Individual", []),
         ("Director Votes For", []), ("Director Votes Against", []),
         ("Director Votes Abstained", []), ("Director Votes Withheld", []),
         ("Director Votes Broker-Non-Votes", [])]) := by
  refine ⟨rfl, ?_, rfl, ?_, ?_, ?_, ?_, ?_⟩
  · intro r hr
    simp only [parse_proposals, List.mem_map] at hr
    obtain ⟨b, hb, rfl⟩ := hr
    rfl
  · intro r hr
    simp only [parse_directors, List.mem_map] at hr
    obtain ⟨b, hb, rfl⟩ := hr
    rfl
  · intro b
    refine ⟨?_, ?_, ?_, ?_, ?_, ?_, ?_, lookup_mkProposal_mgmt b, lookup_mkProposal_total b⟩
    · intro h; rw [lookup_mkProposal_year, h]; exact rfl
    · intro h; rw [lookup_mkProposal_for, h]; exact rfl
    · intro h; rw [lookup_mkProposal_against, h]; exact rfl
    · intro h; rw [lookup_mkProposal_abstained, h]; exact rfl
    · intro h; rw [lookup_mkProposal_withheld, h]; exact rfl
    · intro h; rw [lookup_mkProposal_broker, h]
    · intro h; rw [lookup_mkProposal_text, h]; exact rfl
  · intro b
    refine ⟨?_, ?_, ?_, ?_, ?_, ?_, lookup_mkDirector_year b⟩
    · intro h; rw [lookup_mkDirector_individual, h]
    · intro h; rw [lookup_mkDirector_for, h]; exact rfl
    · intro h; rw [lookup_mkDirector_against, h]; exact rfl
    · intro h; rw [lookup_mkDirector_abstained, h]; exact rfl
    · intro h; rw [lookup_mkDirector_withheld, h]; exact rfl
    · intro h; rw [lookup_mkDirector_broker, h]
  · intro b h1 h2 h3 h4 h5 h6 h7
    simp only [mkProposal, h1, h2, h3, h4, h5, h6, h7]
    exact rfl
  · intro b h1 h2 h3 h4 h5 h6
    simp only [mkDirector, h1, h2, h3, h4, h5, h6]
    exact rfl

theorem record_shape_invariant_witness :
    mkProposal ([] : List Char) =
      [("Proposal Proxy Year", []), ("Vote Results - For", []),
       ("Vote Results - Against", []), ("Vote Results - Abstained", []),
       ("Vote Results - Withheld", []), ("Vote Results - Broker Non-Votes", []),
       ("Proposal Text", []), ("Resolution Outcome", []),
       ("Mgmt. Proposal Category", []), ("Proposal Vote Results Total", [])]
  ∧ mkDirector ([] : List Char) =
      [("Director Election Year", "2024".toList), ("Individual", []),
       ("Director Votes For", []), ("Director Votes Against", []),
       ("Director Votes Abstained", []), ("Director Votes Withheld", []),
       ("Director Votes Broker-Non-Votes", [])] := by
  constructor
  · exact (record_shape_invariant []).2.2.2.2.2.2.1 [] (by decide) (by decide) (by decide)
      (by decide) (by decide) (by decide) (by decide)
  · exact (record_shape_invariant []).2.2.2.2.2.2.2 [] (by decide) (by decide) (by decide)
      (by decide) (by decide) (by decide)

theorem isWS_not_digit {c : Char} (h : isWS c = true) : c.isDigit = false := by
  simp only [isWS, Bool.or_eq_true, decide_eq_true_eq] at h
  rcases h with ((((h | h) | h) | h) | h) | h <;> subst h <;> rfl

theorem isWS_newline : isWS '\n' = true := rfl

theorem digits4_cons_not_digit {c : Char} {s : List Char} (h : c.isDigit = false) :
    digits4 (c :: s) = none := by
  cases s with
  | nil => rfl
  | cons b t =>
    cases t with
    | nil => rfl
    | cons c2 t2 =>
      cases t2 with
      | nil => rfl
      | cons d t3 =>
        simp only [digits4]
        rw [if_neg]
        simp [h]

theorem matchYear_eq (b : List Char) : matchYear b = digits4 (b.dropWhile isWS) := by
  induction b with
  | nil => rfl
  | cons c s ih =>
    by_cases h : isWS c = true
    · simp only [matchYear]
      rw [if_pos h, List.dropWhile_cons_of_pos h]
      cases hd : matchYear s with
      | some v =>
        rw [hd] at ih
        exact ih
      | none =>
        rw [hd] at ih
        exact (digits4_cons_not_digit (isWS_not_digit h)).trans ih
    · simp only [matchYear]
      rw [if_neg h, List.dropWhile_cons_of_neg h]

theorem digits4_eq_take (d : List Char) :
    digits4 d = if 4 ≤ d.length ∧ (d.take 4).all Char.isDigit then some (d.take 4)
      else none := by
  rcases d with _ | ⟨a, _ | ⟨b, _ | ⟨c, _ | ⟨e, t⟩⟩⟩⟩
  · rfl
  · simp [digits4]
  · simp [digits4]
  · simp [digits4]
  · simp only [digits4, List.take_succ_cons, List.take_zero, List.all_cons, List.all_nil,
      List.length_cons]
    by_cases h1 : a.isDigit = true
    · by_cases h2 : b.isDigit = true
      · by_cases h3 : c.isDigit = true
        · by_cases h4 : e.isDigit = true
          · rw [if_pos (by simp [h1, h2, h3, h4]), if_pos (by simp [h1, h2, h3, h4])]
          · rw [if_neg (by simp [h4]), if_neg (by simp [h4])]
        · rw [if_neg (by simp [h3]), if_neg (by simp [h3])]
      · rw [if_neg (by simp [h2]), if_neg (by simp [h2])]
    · rw [if_neg (by simp [h1]), if_neg (by simp [h1])]

/-- C6 amended: Proxy Year extraction is anchored at the block start.  For
every proposal block, the Proposal Proxy Year field equals the first four
characters of the block after its leading whitespace when those exist and
are all digits (even if further digits follow), and the empty string
otherwise; a `2023` preceded by any non-whitespace text yields the empty
string, not that run. -/
theorem proxy_year_anchored (b : List Char) :
    (mkProposal b).lookup "Proposal Proxy Year" =
      some (if 4 ≤ (b.dropWhile isWS).length ∧ ((b.dropWhile isWS).take 4).all Char.isDigit
        then (b.dropWhile isWS).take 4 else []) := by
  rw [lookup_mkProposal_year, matchYear_eq, digits4_eq_take]
  by_cases h : 4 ≤ (b.dropWhile isWS).length ∧ ((b.dropWhile isWS).take 4).all Char.isDigit
  · rw [if_pos h, if_pos h]
    rfl
  · rw [if_neg h, if_neg h]
    rfl

/-- C6 counterexample: on the input `Proposal Proxy Year: abc 1999` the
single block is ` abc 1999`; the first 4-digit run after the marker is
`1999`, but the code's anchored `re.match` yields the empty string. -/
theorem proxy_year_cex :
    ((re_split matchPropMarker ("Proposal Proxy Year: abc 1999".toList)).drop 1 =
      [" abc 1999".toList])
  ∧ (parse_proposals ("Proposal Proxy Year: abc 1999".toList)).map
      (fun r => r.lookup "Proposal Proxy Year") = [some []]
  ∧ specProxyYear (" abc 1999".toList) = "1999".toList
  ∧ some ([] : List Char) ≠ some ("1999".toList) := by
  decide

theorem pyStrip_all_ws {v : List Char} (h : ∀ x ∈ v, isWS x = true) : pyStrip v = [] := by
  have hd : v.dropWhile isWS = [] := List.dropWhile_eq_nil_iff.2 h
  simp [pyStrip, hd]

theorem matchName_of_ne_nil {b : List Char} (h : b.dropWhile isWS ≠ []) :
    matchName b = some ((b.dropWhile isWS).takeWhile (fun c => c ≠ '\n')) := by
  induction b with
  | nil => exact absurd rfl h
  | cons c s ih =>
    by_cases hw : isWS c = true
    · rw [List.dropWhile_cons_of_pos hw] at h ⊢
      simp only [matchName]
      rw [if_pos hw, ih h]
    · rw [List.dropWhile_cons_of_neg hw] at h ⊢
      have hn : ¬ c = '\n' := by
        intro hc
        subst hc
        exact hw isWS_newline
      simp only [matchName]
      rw [if_neg hw, if_neg hn]

theorem matchName_all_ws {b : List Char} (h : ∀ x ∈ b, isWS x = true) :
    matchName b = none ∨
      ∃ v, matchName b = some v ∧ ∀ x ∈ v, isWS x = true := by
  induction b with
  | nil => exact Or.inl rfl
  | cons c s ih =>
    have hc : isWS c = true := h c (by simp)
    have hs : ∀ x ∈ s, isWS x = true := fun x hx => h x (by simp [hx])
    simp only [matchName]
    rw [if_pos hc]
    rcases ih hs with hn | ⟨v, hv, hvw⟩
    · rw [hn]
      by_cases hcn : c = '\n'
      · rw [if_pos hcn]
        exact Or.inl rfl
      · rw [if_neg hcn]
        refine Or.inr ⟨_, rfl, ?_⟩
        intro x hx
        exact h x ((List.takeWhile_sublist _).subset hx)
    · rw [hv]
      exact Or.inr ⟨v, rfl, hvw⟩

theorem individual_of_all_ws {b : List Char} (h : b.dropWhile isWS = []) :
    (match matchName b with
      | some v => pyStrip v
      | none => ([] : List Char)) = [] := by
  have hall : ∀ x ∈ b, isWS x = true := List.dropWhile_eq_nil_iff.1 h
  rcases matchName_all_ws hall with hn | ⟨v, hv, hvw⟩
  · rw [hn]
  · rw [hv]
    exact pyStrip_all_ws hvw

/-- C7 amended: Individual name extraction.  For every director block, the
Individual field equals the first line of the block containing a
non-whitespace character, trimmed of leading and trailing whitespace
(equivalently: skip all leading whitespace of the block, newlines
included, then take the rest of that line and strip it); it is the empty
string when the block is entirely whitespace.  When the `Individual:`
marker ends its line, the name is therefore taken from a later line, not
from the empty remainder of the marker's own line. -/
theorem individual_first_nonblank_line (b : List Char) :
    (mkDirector b).lookup "Individual" =
      some (if b.dropWhile isWS = [] then []
        else pyStrip ((b.dropWhile isWS).takeWhile (fun c => c ≠ '\n'))) := by
  rw [lookup_mkDirector_individual]
  by_cases hd : b.dropWhile isWS = []
  · rw [if_pos hd]
    exact congrArg some (individual_of_all_ws hd)
  · rw [if_neg hd, matchName_of_ne_nil hd]

/-- C7 counterexample: on the input `Individual:\nJane Doe` the single
block is `\nJane Doe`; the trimmed remainder of the line containing the
marker is empty, but the code extracts `Jane Doe` from the next line. -/
theorem individual_cex :
    ((re_split matchIndivMarker ("Individual:\nJane Doe".toList)).drop 1 =
      ["\nJane Doe".toList])
  ∧ (parse_directors ("Individual:\nJane Doe".toList)).map
      (fun r => r.lookup "Individual") = [some ("Jane Doe".toList)]
  ∧ specFirstLineRemainder ("\nJane Doe".toList) = []
  ∧ some ("Jane Doe".toList) ≠ some ([] : List Char) := by
  decide

/-- C8: Tabular export.  For every pair of record sequences the exporter
produces one artifact with exactly two sheets named `Proposal Sheet` and
`Non-Proposal Sheet`; each sheet has its header row first, with the
columns in exactly the data-model order, followed by one row per record in
sequence order; an empty input sequence yields a sheet containing only the
header row. -/
theorem tabular_export (ps ds : List (List (String × List Char))) :
    ((save_to_excel ps ds).map Prod.fst = ["Proposal Sheet", "Non-Proposal Sheet"])
  ∧ (save_to_excel ps ds).length = 2
  ∧ ((save_to_excel ps ds)[0]? = some ("Proposal Sheet",
      proposalColumns.map String.toList :: ps.map (rowFor proposalColumns)))
  ∧ ((save_to_excel ps ds)[1]? = some ("Non-Proposal Sheet",
      directorColumns.map String.toList :: ds.map (rowFor directorColumns)))
  ∧ proposalColumns =
      ["Proposal Proxy Year", "Resolution Outcome", "Proposal Text",
       "Mgmt. Proposal Category", "Vote Results - For", "Vote Results - Against",
       "Vote Results - Abstained", "Vote Results - Withheld",
       "Vote Results - Broker Non-Votes", "Proposal Vote Results Total"]
  ∧ directorColumns =
      ["Director Election Year", "Individual", "Director Votes For",
       "Director Votes Against", "Director Votes Abstained",
       "Director Votes Withheld", "Director Votes Broker-Non-Votes"]
  ∧ (∀ i r, ps[i]? = some r →
      (proposalColumns.map String.toList :: ps.map (rowFor proposalColumns))[i + 1]? =
        some (rowFor proposalColumns r))
  ∧ (∀ i r, ds[i]? = some r →
      (directorColumns.map String.toList :: ds.map (rowFor directorColumns))[i + 1]? =
        some (rowFor directorColumns r))
  ∧ (ps = [] → (save_to_excel ps ds)[0]? =
      some ("Proposal Sheet", [proposalColumns.map String.toList]))
  ∧ (ds = [] → (save_to_excel ps ds)[1]? =
      some ("Non-Proposal Sheet", [directorColumns.map String.toList])) := by
  refine ⟨rfl, rfl, rfl, rfl, rfl, rfl, ?_, ?_, ?_, ?_⟩
  · intro i r hr
    simp [hr]
  · intro i r hr
    simp [hr]
  · intro h
    subst h
    rfl
  · intro h
    subst h
    rfl

theorem tabular_export_witness :
    (save_to_excel [] [])[0]? =
      some ("Proposal Sheet", [proposalColumns.map String.toList]) :=
  (tabular_export [] []).2.2.2.2.2.2.2.2.1 rfl

/-- C9: Determinism and purity.  `parse_proposals` and `parse_directors`
are pure functions of the input text: equal texts give equal record
sequences, the input is never mutated (it is a value), and the two
pipelines may run in either order with identical results. -/
theorem pipelines_pure_deterministic (t1 t2 : List Char) (h : t1 = t2) :
    parse_proposals t1 = parse_proposals t2
  ∧ parse_directors t1 = parse_directors t2
  ∧ ((let ps := parse_proposals t1; let ds := parse_directors t1; (ps, ds)) =
     (let ds := parse_directors t2; let ps := parse_proposals t2; (ps, ds))) := by
  subst h
  exact ⟨rfl, rfl, rfl⟩

theorem pipelines_pure_deterministic_witness :
    parse_proposals ("Individual: X Proposal Proxy Year: 2024".toList) =
      parse_proposals ("Individual: X Proposal Proxy Year: 2024".toList)
  ∧ parse_directors ("Individual: X Proposal Proxy Year: 2024".toList) =
      parse_directors ("Individual: X Proposal Proxy Year: 2024".toList)
  ∧ ((let ps := parse_proposals ("Individual: X Proposal Proxy Year: 2024".toList);
      let ds := parse_directors ("Individual: X Proposal Proxy Year: 2024".toList);
      (ps, ds)) =
     (let ds := parse_directors ("Individual: X Proposal Proxy Year: 2024".toList);
      let ps := parse_proposals ("Individual: X Proposal Proxy Year: 2024".toList);
      (ps, ds))) :=
  pipelines_pure_deterministic _ _ rfl
